import Mathlib

/-!
Verification development for the jvman fetch-and-install core
(`src/jvtgui/helpers.py`): a shallow embedding of `DownloaderThread`
(streaming HTTP download with sidecar file and atomic commit) and
`ExtractionThread` (archive extraction with staging-directory merge),
together with theorems settling the specification claims about them.

Modelling conventions:
- Machine state touched by the workers (files on disk, directory entries)
  is passed explicitly; byte strings are `List Nat`.
- The HTTP response is an input (`Response`): status, the two headers the
  code reads, and the chunk sequence `iter_content` yields.
- Python exceptions that the source lets escape (`KeyError`, `IndexError`,
  `raise_for_status`, `NotADirectoryError` from `shutil.rmtree` on a file,
  `patoolib` errors) are modelled by an `Outcome.raised` result.
- Cooperative stop: `stop()` sets `_stopped`, which the download loop
  checks at the top of each chunk iteration.  The model takes the index of
  the first loop check that observes the flag (`stopAt`); `none` means the
  flag is never set during the loop.
-/

/-- Python exceptions that can escape the worker bodies in `helpers.py`. -/
inductive PyExc where
  | keyError
  | indexError
  | httpError
  | notADirectoryError
  | patoolibError
deriving DecidableEq, Repr

/-- How a worker's `run` body terminated. -/
inductive Outcome where
  | finished
  | stoppedEarly
  | raised (e : PyExc)
deriving DecidableEq, Repr

/-- The part of an HTTP response `DownloaderThread.run` consumes: the
status (for `raise_for_status`), the `content-length` and
`content-disposition` headers (absent = `none`), and the body chunk
sequence produced by `request.iter_content(chunk_size=...)`. -/
structure Response where
  statusOk : Bool
  contentLength : Option Nat
  contentDisposition : Option String
  chunks : List (List Nat)
deriving DecidableEq, Repr

/-- Update of a partial map from path names, used for both the flat file
system seen by the downloader and directory listings seen by extraction. -/
def updateFn {α : Type} (f : String → Option α) (p : String) (v : Option α) :
    String → Option α :=
  fun q => if q = p then v else f q

/-- Flat file system for the download worker: path name to file bytes. -/
abbrev FS := String → Option (List Nat)

/-- Leftmost occurrence search: the characters after the first occurrence of
`pat` in `s`, or `none` when `pat` does not occur. -/
def findAfterPattern (pat : List Char) : List Char → Option (List Char)
  | [] => none
  | c :: rest =>
    if pat.isPrefixOf (c :: rest) then some ((c :: rest).drop pat.length)
    else findAfterPattern pat rest

/-- The first match's capture of `re.findall(r"filename=(.+)", s)[0]`
(helpers.py:246): the characters after the first `filename=` up to the end
of the line, required nonempty by `.+`; `none` when there is no match
(Python then raises `IndexError` on the `[0]`). -/
def findFilename (s : String) : Option String :=
  match findAfterPattern "filename=".data s.data with
  | none => none
  | some rest =>
    let cap := rest.takeWhile (fun c => c ≠ '\n')
    if cap.isEmpty then none else some (String.mk cap)

/-- Sidecar path (helpers.py:253-255): `with_suffix(suffix + ".part")`
appends `.part` to the final path. -/
def partPath (p : String) : String := p ++ ".part"

/-- Events `DownloaderThread` emits through its Qt signals. -/
inductive DEvent where
  | beginSendRequest
  | endSendRequest
  | filenameFound (name : String)
  | filesizeFound (n : Nat)
  | beginDownload (path : String)
  | bytesChanged (n : Nat)
  | chunkWritten (i : Nat)
  | endDownload (path : String)
deriving DecidableEq, Repr

/-- Disk operations the download worker performs, recorded in order so that
atomicity of the final commit is observable. -/
inductive FsOp where
  | openWrite (p : String)
  | write (p : String) (bytes : List Nat)
  | flushOp (p : String)
  | close (p : String)
  | replace (src dst : String)
deriving DecidableEq, Repr

/-- Effect of one disk operation on the flat file system: `openWrite`
truncates/creates, `write` appends, `replace` is `Path.replace` (atomic
rename onto the destination, source ceases to exist). -/
def FsOp.apply (fs : FS) : FsOp → FS
  | .openWrite p => updateFn fs p (some [])
  | .write p bs => updateFn fs p (some (((fs p).getD []) ++ bs))
  | .flushOp _ => fs
  | .close _ => fs
  | .replace src dst => updateFn (updateFn fs dst (fs src)) src none

/-- The path whose content a disk operation can affect (for `replace`,
the destination being overwritten). -/
def FsOp.target : FsOp → String
  | .openWrite p => p
  | .write p _ => p
  | .flushOp p => p
  | .close p => p
  | .replace _ dst => dst

/-- Python `str(...)` on the worker's `file_location` field, whose initial
value is `None` (helpers.py:213). -/
def pyStr : Option String → String
  | none => "None"
  | some s => s

/-- Whether the `_stopped` flag is visible at the loop check of iteration
`i`, when the first check to observe it is `stopAt`. -/
def stopSeen (stopAt : Option Nat) (i : Nat) : Bool :=
  match stopAt with
  | some k => decide (k ≤ i)
  | none => false

/-- Result of the chunk loop of `DownloaderThread.run` (helpers.py:270-281). -/
structure LoopOut where
  events : List DEvent
  written : List Nat
  ops : List FsOp
  stopped : Bool
deriving Repr

/-- The chunk loop (helpers.py:270-281): for each chunk yielded by
`iter_content`, first check `_stopped` (return at once when set), skip
empty chunks, otherwise write the chunk to the sidecar sink, add its length
to `downloaded_bytes`, and emit `bytesChanged` then `chunkWritten`.
`i` is the `enumerate` counter, `downloaded` the bytes written so far; in
in-memory mode (`use_bytesio`) writes go to a `BytesIO` buffer and produce
no disk operation. -/
def dlLoop (stopAt : Option Nat) (use_bytesio : Bool) (partLoc : String) :
    List (List Nat) → Nat → Nat → LoopOut
  | [], _, _ => ⟨[], [], [], false⟩
  | c :: rest, i, downloaded =>
    if stopSeen stopAt i then ⟨[], [], [], true⟩
    else if c.isEmpty then dlLoop stopAt use_bytesio partLoc rest (i + 1) downloaded
    else
      let out := dlLoop stopAt use_bytesio partLoc rest (i + 1) (downloaded + c.length)
      ⟨DEvent.bytesChanged (downloaded + c.length) :: DEvent.chunkWritten i :: out.events,
       c ++ out.written,
       (if use_bytesio then [] else [FsOp.write partLoc c]) ++ out.ops,
       out.stopped⟩

/-- Header processing of `DownloaderThread.run` (helpers.py:242-246), in
source order: `raise_for_status()`, then `int(headers["content-length"])`
(`KeyError` when absent), then the `content-disposition` lookup
(`KeyError`) and `re.findall(...)[0]` (`IndexError` on no match). -/
def headerInfo (resp : Response) : Except PyExc (Nat × String) :=
  if resp.statusOk = false then .error .httpError
  else
    match resp.contentLength with
    | none => .error .keyError
    | some n =>
      match resp.contentDisposition with
      | none => .error .keyError
      | some cd =>
        match findFilename cd with
        | none => .error .indexError
        | some fname => .ok (n, fname)

/-- Observable result of one `DownloaderThread.run` invocation. -/
structure DlResult where
  events : List DEvent
  ops : List FsOp
  fs : FS
  success : Bool
  file_location : Option String
  part_location : Option String
  downloaded_bytes : Nat
  outcome : Outcome

/-- Shallow embedding of `DownloaderThread.run` (helpers.py:235-298).
`resp` is the HTTP response, `location` the destination directory path,
`stopAt` the stop-flag observation point, `fs0` the initial file system.
The run emits `beginSendRequest` / `endSendRequest`, processes headers
(any header failure escapes as an exception with no further events),
computes `file_location = location/filename` and the `.part` sidecar path,
emits `filenameFound`, `filesizeFound`, `beginDownload`, opens the sidecar
sink (a disk file, or a memory buffer in `use_bytesio` mode), runs the
chunk loop, and on normal loop exit commits: in `use_bytesio` mode by
opening the final path and copying the buffer into it, otherwise by
closing the sidecar and atomically renaming it over the final path
(`Path.replace`); then sets `success` and emits `endDownload`.  A stopped
loop returns at once: no commit, no event from `run` itself. -/
def DownloaderThread.run (resp : Response) (use_bytesio : Bool)
    (location : String) (stopAt : Option Nat) (fs0 : FS) : DlResult :=
  match headerInfo resp with
  | .error e =>
    { events := [.beginSendRequest, .endSendRequest], ops := [], fs := fs0,
      success := false, file_location := none, part_location := none,
      downloaded_bytes := 0, outcome := .raised e }
  | .ok (filesize, fname) =>
    let fileLoc := location ++ "/" ++ fname
    let partLoc := partPath fileLoc
    let evHead := [DEvent.beginSendRequest, DEvent.endSendRequest,
                   DEvent.filenameFound fname, DEvent.filesizeFound filesize,
                   DEvent.beginDownload fileLoc]
    let openOps := if use_bytesio then [] else [FsOp.openWrite partLoc]
    let lout := dlLoop stopAt use_bytesio partLoc resp.chunks 0 0
    if lout.stopped then
      { events := evHead ++ lout.events,
        ops := openOps ++ lout.ops,
        fs := (openOps ++ lout.ops).foldl FsOp.apply fs0,
        success := false, file_location := some fileLoc,
        part_location := some partLoc,
        downloaded_bytes := lout.written.length, outcome := .stoppedEarly }
    else
      let commitOps :=
        if use_bytesio then
          [FsOp.openWrite fileLoc, FsOp.write fileLoc lout.written,
           FsOp.close fileLoc]
        else
          [FsOp.flushOp partLoc, FsOp.close partLoc,
           FsOp.replace partLoc fileLoc]
      { events := evHead ++ lout.events ++ [.endDownload fileLoc],
        ops := openOps ++ lout.ops ++ commitOps,
        fs := (openOps ++ lout.ops ++ commitOps).foldl FsOp.apply fs0,
        success := true, file_location := some fileLoc,
        part_location := some partLoc,
        downloaded_bytes := lout.written.length, outcome := .finished }

/-- Combined event trace of a run in which `stop()` (helpers.py:229-233) is
called between chunk iterations: `run` has already emitted its events up to
the stop check (by then `file_location` is set), `stop` emits
`endDownload(str(file_location))`, and the loop, observing the flag at its
next check, returns without emitting anything further. -/
def stoppedDownloadTrace (resp : Response) (use_bytesio : Bool)
    (location : String) (fs0 : FS) (k : Nat) : List DEvent :=
  let r := DownloaderThread.run resp use_bytesio location (some k) fs0
  r.events ++ [DEvent.endDownload (pyStr r.file_location)]

/-- Combined event trace when `stop()` is called while `run` is blocked
awaiting response headers: `file_location` still holds its initial `None`,
so `stop` emits `endDownload("None")` right after `beginSendRequest`; the
run then proceeds, and the first loop check that could observe the flag is
check 0. -/
def stopBeforeHeadersTrace (resp : Response) (use_bytesio : Bool)
    (location : String) (fs0 : FS) : List DEvent :=
  match (DownloaderThread.run resp use_bytesio location (some 0) fs0).events with
  | [] => [DEvent.endDownload (pyStr none)]
  | e :: rest => e :: DEvent.endDownload (pyStr none) :: rest

/-- Recognizer for the download worker's terminal event. -/
def isEndDl : DEvent → Bool
  | .endDownload _ => true
  | _ => false

/-- Recognizer for `beginDownload`. -/
def isBeginDl : DEvent → Bool
  | .beginDownload _ => true
  | _ => false

/-- The payloads of the `bytesChanged` events of a trace, in order. -/
def bytesValues : List DEvent → List Nat
  | [] => []
  | .bytesChanged n :: rest => n :: bytesValues rest
  | _ :: rest => bytesValues rest

/-- An entry of a directory tree: a plain file with its bytes, or a
directory with its named children. -/
inductive FsEntry where
  | file (content : List Nat)
  | dir (entries : List (String × FsEntry))

/-- Top-level listing of a directory: name to entry. -/
abbrev DirMap := String → Option FsEntry

/-- Result of `patoolib.extract_archive` into the staging directory
(helpers.py:178): the staged top-level entries in directory-listing order,
or a backend failure (corrupt/unsupported archive, which raises). -/
inductive ArchiveOutcome where
  | ok (staged : List (String × FsEntry))
  | err

/-- Events `ExtractionThread` emits through its Qt signals. -/
inductive EEvent where
  | beginExtract (path : String)
  | endExtract (path : String)
deriving DecidableEq, Repr

/-- Recognizer for the extraction worker's terminal event. -/
def isEndEx : EEvent → Bool
  | .endExtract _ => true
  | _ => false

/-- Whether a destination slot holds a plain file: `shutil.rmtree` on such
an entry raises `NotADirectoryError`; on a directory it succeeds, and on an
absent name it is not called at all. -/
def entryIsFile : Option FsEntry → Bool
  | some (.file _) => true
  | some (.dir _) => false
  | none => false

/-- The merge loop of `ExtractionThread.run` (helpers.py:180-189): for each
staged top-level entry name, if the destination already has an entry of
that name then `shutil.rmtree` it — which succeeds on a directory but
raises `NotADirectoryError` on a plain file — and then `shutil.move` the
staged entry in.  Returns the destination listing reached so far together
with the first exception, if any (a raised exception aborts the loop,
leaving earlier moves applied). -/
def mergeLoop : List (String × FsEntry) → DirMap → DirMap × Option PyExc
  | [], d => (d, none)
  | (n, e) :: rest, d =>
    if entryIsFile (d n) then (d, some .notADirectoryError)
    else mergeLoop rest (updateFn d n (some e))

/-- Observable result of one `ExtractionThread.run` invocation. -/
structure ExRunResult where
  events : List EEvent
  dest : DirMap
  success : Bool
  outcome : Outcome

/-- Shallow embedding of `ExtractionThread.run` (helpers.py:170-192):
reset `success` to false, emit `beginExtract(dest_dir)`, extract the
archive into a fresh staging directory (a backend failure raises, leaving
the destination untouched and no further event), run the merge loop (a
merge exception likewise escapes with no terminal event), then set
`success = true` and emit `endExtract(dest_dir)`.  The body never reads
the `_stopped` flag, so a concurrent `stop()` does not alter this result. -/
def ExtractionThread.run (backend : ArchiveOutcome) (destName : String)
    (dest : DirMap) : ExRunResult :=
  match backend with
  | .err =>
    { events := [.beginExtract destName], dest := dest,
      success := false, outcome := .raised .patoolibError }
  | .ok staged =>
    match mergeLoop staged dest with
    | (d, some e) =>
      { events := [.beginExtract destName], dest := d,
        success := false, outcome := .raised e }
    | (d, none) =>
      { events := [.beginExtract destName, .endExtract destName], dest := d,
        success := true, outcome := .finished }

/-- Combined event trace of an extraction run on which `stop()`
(helpers.py:165-169) was called mid-run: `stop` emits
`endExtract(str(dest_dir))` immediately, but `run` never consults the
flag, so it still runs to completion and emits its own events around it;
`stopIdx` is how many of `run`'s events had fired when `stop` was called. -/
def stoppedExtractTrace (backend : ArchiveOutcome) (destName : String)
    (dest : DirMap) (stopIdx : Nat) : List EEvent :=
  let evs := (ExtractionThread.run backend destName dest).events
  evs.take stopIdx ++ [EEvent.endExtract destName] ++ evs.drop stopIdx

lemma updateFn_same {α : Type} (f : String → Option α) (p : String)
    (v : Option α) : updateFn f p v p = v := by
  simp [updateFn]

lemma updateFn_ne {α : Type} (f : String → Option α) (p : String)
    (v : Option α) {q : String} (h : q ≠ p) : updateFn f p v q = f q := by
  simp [updateFn, h]

lemma updateFn_updateFn_self {α : Type} (f : String → Option α) (p : String)
    (v w : Option α) : updateFn (updateFn f p v) p w = updateFn f p w := by
  funext q
  by_cases h : q = p <;> simp [updateFn, h]

lemma updateFn_self_of_eq {α : Type} {f : String → Option α} {p : String}
    {v : Option α} (h : f p = v) : updateFn f p v = f := by
  funext q
  by_cases hq : q = p <;> simp [updateFn, hq, h.symm]

lemma partPath_ne (p : String) : p ≠ partPath p := by
  intro h
  have hl := congrArg String.length h
  rw [partPath, String.length_append] at hl
  have h5 : (".part" : String).length = 5 := rfl
  omega

lemma partPath_length (p : String) :
    (partPath p).length = p.length + 5 := by
  rw [partPath, String.length_append]
  rfl

/-- The chunk loop never emits the terminal event. -/
lemma dlLoop_countP_isEndDl (stopAt : Option Nat) (u : Bool) (p : String) :
    ∀ (chunks : List (List Nat)) (i d : Nat),
      (dlLoop stopAt u p chunks i d).events.countP isEndDl = 0 := by
  intro chunks
  induction chunks with
  | nil => intro i d; simp [dlLoop]
  | cons c rest ih =>
    intro i d
    rw [dlLoop]
    split
    · simp
    · split
      · exact ih (i + 1) d
      · simp [List.countP_cons, isEndDl, ih (i + 1) (d + c.length)]

/-- The chunk loop never emits `beginDownload`. -/
lemma dlLoop_countP_isBeginDl (stopAt : Option Nat) (u : Bool) (p : String) :
    ∀ (chunks : List (List Nat)) (i d : Nat),
      (dlLoop stopAt u p chunks i d).events.countP isBeginDl = 0 := by
  intro chunks
  induction chunks with
  | nil => intro i d; simp [dlLoop]
  | cons c rest ih =>
    intro i d
    rw [dlLoop]
    split
    · simp
    · split
      · exact ih (i + 1) d
      · simp [List.countP_cons, isBeginDl, ih (i + 1) (d + c.length)]

/-- In in-memory mode the loop performs no disk operation. -/
lemma dlLoop_ops_bytesio (stopAt : Option Nat) (p : String) :
    ∀ (chunks : List (List Nat)) (i d : Nat),
      (dlLoop stopAt true p chunks i d).ops = [] := by
  intro chunks
  induction chunks with
  | nil => intro i d; simp [dlLoop]
  | cons c rest ih =>
    intro i d
    rw [dlLoop]
    split
    · rfl
    · split
      · exact ih (i + 1) d
      · simpa using ih (i + 1) (d + c.length)

/-- In file mode every disk operation of the loop is a write to the
sidecar path. -/
lemma dlLoop_ops_file (stopAt : Option Nat) (p : String) :
    ∀ (chunks : List (List Nat)) (i d : Nat),
      ∀ op ∈ (dlLoop stopAt false p chunks i d).ops,
        ∃ c, op = FsOp.write p c := by
  intro chunks
  induction chunks with
  | nil => intro i d op hop; simp [dlLoop] at hop
  | cons c rest ih =>
    intro i d op hop
    rw [dlLoop] at hop
    split at hop
    · simp at hop
    · split at hop
      · exact ih (i + 1) d op hop
      · simp at hop
        rcases hop with h | h
        · exact ⟨c, h⟩
        · exact ih (i + 1) (d + c.length) op h

/-- Applying the loop's disk writes to a file system in which the sidecar
holds `cur` leaves the sidecar holding `cur ++ written` and nothing else
changed. -/
lemma dlLoop_ops_foldl (stopAt : Option Nat) (p : String) :
    ∀ (chunks : List (List Nat)) (i d : Nat) (fs : FS) (cur : List Nat),
      (dlLoop stopAt false p chunks i d).ops.foldl FsOp.apply
          (updateFn fs p (some cur)) =
        updateFn fs p (some (cur ++ (dlLoop stopAt false p chunks i d).written)) := by
  intro chunks
  induction chunks with
  | nil => intro i d fs cur; simp [dlLoop]
  | cons c rest ih =>
    intro i d fs cur
    rw [dlLoop]
    split
    · simp
    · split
      · exact ih (i + 1) d fs cur
      · simp only [Bool.false_eq_true, if_false, List.singleton_append,
          List.foldl_cons]
        rw [show FsOp.apply (updateFn fs p (some cur)) (FsOp.write p c) =
              updateFn fs p (some (cur ++ c)) by
            simp [FsOp.apply, updateFn_same, updateFn_updateFn_self]]
        rw [ih (i + 1) (d + c.length) fs (cur ++ c)]
        simp

/-- With the stop flag never set, the loop runs to completion and writes
the concatenation of all chunks. -/
lemma dlLoop_none (u : Bool) (p : String) :
    ∀ (chunks : List (List Nat)) (i d : Nat),
      (dlLoop none u p chunks i d).stopped = false ∧
      (dlLoop none u p chunks i d).written = chunks.flatten := by
  intro chunks
  induction chunks with
  | nil => intro i d; simp [dlLoop]
  | cons c rest ih =>
    intro i d
    rw [dlLoop]
    have hs : stopSeen none i = false := rfl
    rw [hs]
    simp only [Bool.false_eq_true, if_false]
    split
    · rename_i hc
      have : c = [] := by simpa [List.isEmpty_iff] using hc
      subst this
      simpa using ih (i + 1) d
    · simpa using ih (i + 1) (d + c.length)

/-- With the stop flag first observed at check `k`, `i ≤ k`, and enough
chunks remaining to reach that check, the loop stops and has written
exactly the chunks before the check. -/
lemma dlLoop_stop (u : Bool) (p : String) (k : Nat) :
    ∀ (chunks : List (List Nat)) (i d : Nat), i ≤ k → k < i + chunks.length →
      (dlLoop (some k) u p chunks i d).stopped = true ∧
      (dlLoop (some k) u p chunks i d).written = (chunks.take (k - i)).flatten := by
  intro chunks
  induction chunks with
  | nil => intro i d h1 h2; simp at h2; omega
  | cons c rest ih =>
    intro i d h1 h2
    rw [dlLoop]
    by_cases hk : k ≤ i
    · have hik : i = k := le_antisymm h1 hk
      have hs : stopSeen (some k) i = true := by simp [stopSeen, hk]
      rw [hs]
      subst hik
      simp
    · have hs : stopSeen (some k) i = false := by simp [stopSeen]; omega
      rw [hs]
      simp only [Bool.false_eq_true, if_false]
      have h1' : i + 1 ≤ k := by omega
      have h2' : k < i + 1 + rest.length := by simp at h2; omega
      have htake : (c :: rest).take (k - i) = c :: rest.take (k - (i + 1)) := by
        have : k - i = (k - (i + 1)) + 1 := by omega
        rw [this, List.take_succ_cons]
      split
      · rename_i hc
        have : c = [] := by simpa [List.isEmpty_iff] using hc
        rcases ih (i + 1) d h1' h2' with ⟨hst, hwr⟩
        refine ⟨hst, ?_⟩
        rw [hwr, htake, this]
        simp
      · rcases ih (i + 1) (d + c.length) h1' h2' with ⟨hst, hwr⟩
        refine ⟨hst, ?_⟩
        simp only [hwr, htake, List.flatten_cons]

lemma bytesValues_append : ∀ (a b : List DEvent),
    bytesValues (a ++ b) = bytesValues a ++ bytesValues b := by
  intro a b
  induction a with
  | nil => rfl
  | cons e rest ih =>
    cases e <;> simp [bytesValues, ih]

lemma countP_isEndDl_evHead (fname : String) (filesize : Nat) (fileLoc : String) :
    ([DEvent.beginSendRequest, DEvent.endSendRequest,
      DEvent.filenameFound fname, DEvent.filesizeFound filesize,
      DEvent.beginDownload fileLoc]).countP isEndDl = 0 := by
  simp [List.countP_cons, isEndDl]

lemma getLast?_append_one {α : Type} : ∀ (l : List α) (a : α),
    (l ++ [a]).getLast? = some a := by
  intro l a
  induction l with
  | nil => rfl
  | cons x rest ih =>
    rw [List.cons_append, List.getLast?_cons, ih]
    cases rest <;> simp_all

/-- The `bytesChanged` payloads of the loop's events, prefixed with the
byte count at loop entry, form a non-decreasing chain. -/
lemma dlLoop_chain (stopAt : Option Nat) (u : Bool) (p : String) :
    ∀ (chunks : List (List Nat)) (i d : Nat),
      List.Chain' (· ≤ ·) (d :: bytesValues (dlLoop stopAt u p chunks i d).events) := by
  intro chunks
  induction chunks with
  | nil => intro i d; simp [dlLoop, bytesValues]
  | cons c rest ih =>
    intro i d
    rw [dlLoop]
    split
    · simp [bytesValues]
    · split
      · exact ih (i + 1) d
      · simp only [bytesValues]
        rw [List.chain'_cons]
        exact ⟨Nat.le_add_right d c.length, ih (i + 1) (d + c.length)⟩

/-- The merge loop leaves destination entries whose names are not staged
untouched, whether or not it raises. -/
lemma mergeLoop_not_mem : ∀ (staged : List (String × FsEntry)) (d : DirMap)
    (p : String), p ∉ staged.map Prod.fst →
      (mergeLoop staged d).1 p = d p := by
  intro staged
  induction staged with
  | nil => intro d p _; rfl
  | cons ne rest ih =>
    intro d p hp
    obtain ⟨n, e⟩ := ne
    simp only [List.map_cons, List.mem_cons] at hp
    push_neg at hp
    rw [mergeLoop]
    split
    · rfl
    · rw [ih (updateFn d n (some e)) p hp.2, updateFn_ne _ _ _ hp.1]

/-- After a merge that raised no exception, every staged entry (names
assumed distinct, as directory listings are) sits in the destination. -/
lemma mergeLoop_ok_mem : ∀ (staged : List (String × FsEntry)) (d : DirMap),
    (staged.map Prod.fst).Nodup → (mergeLoop staged d).2 = none →
    ∀ ne ∈ staged, (mergeLoop staged d).1 ne.1 = some ne.2 := by
  intro staged
  induction staged with
  | nil => intro d _ _ ne hne; simp at hne
  | cons hd0 rest ih =>
    intro d hnd hok ne hne
    obtain ⟨n, e⟩ := hd0
    simp only [List.map_cons, List.nodup_cons] at hnd
    rw [mergeLoop] at hok ⊢
    split at hok
    · simp at hok
    · rw [if_neg (by assumption)]
      rcases List.mem_cons.mp hne with h | h
      · subst h
        rw [mergeLoop_not_mem rest _ n (by simpa using hnd.1)]
        exact updateFn_same _ _ _
      · exact ih (updateFn d n (some e)) hnd.2 hok ne h

/-- A merge whose every staged entry already sits in the destination as a
non-file (directory) entry with identical content raises nothing and
changes nothing. -/
lemma mergeLoop_fixed : ∀ (staged : List (String × FsEntry)) (d : DirMap),
    (∀ ne ∈ staged, d ne.1 = some ne.2 ∧ entryIsFile (some ne.2) = false) →
    (mergeLoop staged d).2 = none ∧ (mergeLoop staged d).1 = d := by
  intro staged
  induction staged with
  | nil => intro d _; exact ⟨rfl, rfl⟩
  | cons hd0 rest ih =>
    intro d h
    obtain ⟨n, e⟩ := hd0
    obtain ⟨hdn, hdir⟩ := h (n, e) (List.mem_cons_self _ _)
    rw [mergeLoop, if_neg (by rw [hdn]; simp [hdir])]
    rw [updateFn_self_of_eq hdn]
    exact ih d (fun ne hne => h ne (List.mem_cons_of_mem _ hne))

/-- If some staged name collides with a plain file in the destination,
the merge raises `NotADirectoryError` (entries staged under other names do
not touch that slot before the collision is reached). -/
lemma mergeLoop_file_err : ∀ (staged : List (String × FsEntry)) (d : DirMap)
    (n : String) (c : List Nat), n ∈ staged.map Prod.fst →
    d n = some (.file c) →
    (mergeLoop staged d).2 = some .notADirectoryError := by
  intro staged
  induction staged with
  | nil => intro d n c hmem _; simp at hmem
  | cons hd0 rest ih =>
    intro d n c hmem hdn
    obtain ⟨m, e⟩ := hd0
    rw [mergeLoop]
    by_cases hfile : entryIsFile (d m) = true
    · rw [if_pos hfile]
    · rw [if_neg hfile]
      by_cases hnm : n = m
      · exact absurd (by rw [← hnm, hdn]; rfl) hfile
      · have hrest : n ∈ rest.map Prod.fst := by
          simp only [List.map_cons, List.mem_cons] at hmem
          tauto
        exact ih (updateFn d m (some e)) n c hrest
          (by rw [updateFn_ne _ _ _ hnm, hdn])

/-- Final file system of a completed file-backed run: the sidecar was
created, filled with the body, and then atomically renamed over the final
path. -/
lemma run_fs_file_mode (resp : Response) (loc fname : String) (n : Nat)
    (fs0 : FS) (hH : headerInfo resp = .ok (n, fname)) :
    (DownloaderThread.run resp false loc none fs0).fs =
      updateFn
        (updateFn
          (updateFn fs0 (partPath (loc ++ "/" ++ fname))
            (some resp.chunks.flatten))
          (loc ++ "/" ++ fname) (some resp.chunks.flatten))
        (partPath (loc ++ "/" ++ fname)) none := by
  have hloop := dlLoop_none false (partPath (loc ++ "/" ++ fname)) resp.chunks 0 0
  simp only [DownloaderThread.run, hH, hloop.1, Bool.false_eq_true, if_false]
  simp only [List.cons_append, List.nil_append, List.foldl_cons, List.foldl_append]
  rw [show FsOp.apply fs0 (FsOp.openWrite (partPath (loc ++ "/" ++ fname))) =
        updateFn fs0 (partPath (loc ++ "/" ++ fname)) (some []) from rfl]
  rw [dlLoop_ops_foldl none (partPath (loc ++ "/" ++ fname)) resp.chunks 0 0 fs0 []]
  rw [hloop.2, List.nil_append]
  simp only [List.foldl_cons, List.foldl_nil]
  rw [show ∀ g : FS, FsOp.apply g (FsOp.flushOp (partPath (loc ++ "/" ++ fname))) = g
        from fun g => rfl]
  rw [show ∀ g : FS, FsOp.apply g (FsOp.close (partPath (loc ++ "/" ++ fname))) = g
        from fun g => rfl]
  rw [show ∀ g : FS, FsOp.apply g
        (FsOp.replace (partPath (loc ++ "/" ++ fname)) (loc ++ "/" ++ fname)) =
        updateFn (updateFn g (loc ++ "/" ++ fname) (g (partPath (loc ++ "/" ++ fname))))
          (partPath (loc ++ "/" ++ fname)) none from fun g => rfl]
  rw [updateFn_same]

/-- Final file system of a completed in-memory run: the body buffer is
copied into a freshly truncated file at the final path; no other path is
touched. -/
lemma run_fs_bytesio_mode (resp : Response) (loc fname : String) (n : Nat)
    (fs0 : FS) (hH : headerInfo resp = .ok (n, fname)) :
    (DownloaderThread.run resp true loc none fs0).fs =
      updateFn fs0 (loc ++ "/" ++ fname) (some resp.chunks.flatten) := by
  have hloop := dlLoop_none true (partPath (loc ++ "/" ++ fname)) resp.chunks 0 0
  simp only [DownloaderThread.run, hH, hloop.1, Bool.false_eq_true, if_false, if_true]
  rw [dlLoop_ops_bytesio none (partPath (loc ++ "/" ++ fname)) resp.chunks 0 0]
  simp only [List.nil_append, List.foldl_cons, List.foldl_nil]
  rw [show FsOp.apply fs0 (FsOp.openWrite (loc ++ "/" ++ fname)) =
        updateFn fs0 (loc ++ "/" ++ fname) (some []) from rfl]
  rw [show ∀ g : FS, ∀ bs, FsOp.apply g (FsOp.write (loc ++ "/" ++ fname) bs) =
        updateFn g (loc ++ "/" ++ fname) (some ((g (loc ++ "/" ++ fname)).getD [] ++ bs))
        from fun g bs => rfl]
  rw [show ∀ g : FS, FsOp.apply g (FsOp.close (loc ++ "/" ++ fname)) = g
        from fun g => rfl]
  rw [updateFn_same, hloop.2]
  simp [updateFn_updateFn_self]

/-- File system after a file-backed run stopped at chunk boundary `k`: the
sidecar file persists, holding exactly the bytes of the first `k` chunks;
nothing else was touched. -/
lemma run_fs_stopped (resp : Response) (loc fname : String) (n k : Nat)
    (fs0 : FS) (hH : headerInfo resp = .ok (n, fname))
    (hk : k < resp.chunks.length) :
    (DownloaderThread.run resp false loc (some k) fs0).fs =
      updateFn fs0 (partPath (loc ++ "/" ++ fname))
        (some ((resp.chunks.take k).flatten)) := by
  have hloop := dlLoop_stop false (partPath (loc ++ "/" ++ fname)) k resp.chunks 0 0
    (Nat.zero_le k) (by simpa using hk)
  simp only [DownloaderThread.run, hH, hloop.1, Bool.false_eq_true, if_false, if_true]
  simp only [List.cons_append, List.nil_append, List.foldl_cons]
  rw [show FsOp.apply fs0 (FsOp.openWrite (partPath (loc ++ "/" ++ fname))) =
        updateFn fs0 (partPath (loc ++ "/" ++ fname)) (some []) from rfl]
  rw [dlLoop_ops_foldl (some k) (partPath (loc ++ "/" ++ fname)) resp.chunks 0 0 fs0 []]
  rw [hloop.2]
  simp

/-- Event trace, success flag and outcome of a run whose header processing
raised: only the two request events fired. -/
lemma run_error_shape (resp : Response) (u : Bool) (loc : String)
    (stopAt : Option Nat) (fs0 : FS) (e : PyExc)
    (hH : headerInfo resp = .error e) :
    (DownloaderThread.run resp u loc stopAt fs0).events =
      [DEvent.beginSendRequest, DEvent.endSendRequest] ∧
    (DownloaderThread.run resp u loc stopAt fs0).success = false ∧
    (DownloaderThread.run resp u loc stopAt fs0).outcome = .raised e := by
  simp only [DownloaderThread.run, hH]
  refine ⟨?_, ?_, ?_⟩ <;> trivial

/-- Shape of a run stopped at a reachable chunk boundary `k`. -/
lemma run_stopped_shape (resp : Response) (u : Bool) (loc fname : String)
    (n k : Nat) (fs0 : FS) (hH : headerInfo resp = .ok (n, fname))
    (hk : k < resp.chunks.length) :
    (DownloaderThread.run resp u loc (some k) fs0).events =
      [DEvent.beginSendRequest, DEvent.endSendRequest,
       DEvent.filenameFound fname, DEvent.filesizeFound n,
       DEvent.beginDownload (loc ++ "/" ++ fname)] ++
      (dlLoop (some k) u (partPath (loc ++ "/" ++ fname)) resp.chunks 0 0).events ∧
    (DownloaderThread.run resp u loc (some k) fs0).success = false ∧
    (DownloaderThread.run resp u loc (some k) fs0).file_location =
      some (loc ++ "/" ++ fname) ∧
    (DownloaderThread.run resp u loc (some k) fs0).outcome = .stoppedEarly := by
  have hloop := dlLoop_stop u (partPath (loc ++ "/" ++ fname)) k resp.chunks 0 0
    (Nat.zero_le k) (by simpa using hk)
  simp only [DownloaderThread.run, hH, hloop.1, if_true]
  refine ⟨?_, ?_, ?_, ?_⟩ <;> trivial

/-- Shape of a completed run: header events, loop events, then the
terminal event, with `success = true`. -/
lemma run_ok_shape (resp : Response) (u : Bool) (loc fname : String)
    (n : Nat) (fs0 : FS) (hH : headerInfo resp = .ok (n, fname)) :
    (DownloaderThread.run resp u loc none fs0).events =
      [DEvent.beginSendRequest, DEvent.endSendRequest,
       DEvent.filenameFound fname, DEvent.filesizeFound n,
       DEvent.beginDownload (loc ++ "/" ++ fname)] ++
      ((dlLoop none u (partPath (loc ++ "/" ++ fname)) resp.chunks 0 0).events ++
       [DEvent.endDownload (loc ++ "/" ++ fname)]) ∧
    (DownloaderThread.run resp u loc none fs0).success = true ∧
    (DownloaderThread.run resp u loc none fs0).file_location =
      some (loc ++ "/" ++ fname) ∧
    (DownloaderThread.run resp u loc none fs0).outcome = .finished ∧
    (DownloaderThread.run resp u loc none fs0).downloaded_bytes =
      resp.chunks.flatten.length := by
  have hloop := dlLoop_none u (partPath (loc ++ "/" ++ fname)) resp.chunks 0 0
  simp only [DownloaderThread.run, hH, hloop.1, Bool.false_eq_true, if_false]
  refine ⟨?_, ?_, ?_, ?_, ?_⟩ <;> first | trivial | (rw [hloop.2])

/-- A run whose outcome is a raised exception got it from header
processing (the model's only raise site). -/
lemma run_raised_headerInfo (resp : Response) (u : Bool) (loc : String)
    (stopAt : Option Nat) (fs0 : FS) (e : PyExc)
    (h : (DownloaderThread.run resp u loc stopAt fs0).outcome = .raised e) :
    headerInfo resp = .error e := by
  cases hh : headerInfo resp with
  | error e2 =>
    rcases run_error_shape resp u loc stopAt fs0 e2 hh with ⟨_, _, ho⟩
    rw [ho] at h
    cases h
    rfl
  | ok v =>
    obtain ⟨n, fname⟩ := v
    simp only [DownloaderThread.run, hh] at h
    split at h
    · exact Outcome.noConfusion h
    · exact Outcome.noConfusion h

/-- Dropping the header events of a run trace, and a trailing terminal
event, leaves the `bytesChanged` payloads unchanged. -/
lemma bytesValues_head_tail (fname : String) (n : Nat) (p q : String)
    (l : List DEvent) :
    bytesValues ([DEvent.beginSendRequest, DEvent.endSendRequest,
      DEvent.filenameFound fname, DEvent.filesizeFound n,
      DEvent.beginDownload p] ++ l) = bytesValues l ∧
    bytesValues (l ++ [DEvent.endDownload q]) = bytesValues l := by
  constructor
  · rw [bytesValues_append]
    rfl
  · rw [bytesValues_append]
    simp [bytesValues]

/-- The `bytesChanged` payloads of any run's own events form a
non-decreasing chain. -/
lemma run_bytesValues_chain (resp : Response) (u : Bool) (loc : String)
    (stopAt : Option Nat) (fs0 : FS) :
    List.Chain' (· ≤ ·)
      (bytesValues (DownloaderThread.run resp u loc stopAt fs0).events) := by
  cases hh : headerInfo resp with
  | error e =>
    rcases run_error_shape resp u loc stopAt fs0 e hh with ⟨he, _, _⟩
    rw [he]
    simp [bytesValues]
  | ok v =>
    obtain ⟨n, fname⟩ := v
    simp only [DownloaderThread.run, hh]
    split
    · dsimp only
      rw [(bytesValues_head_tail fname n (loc ++ "/" ++ fname)
        (loc ++ "/" ++ fname) _).1]
      exact (dlLoop_chain stopAt u (partPath (loc ++ "/" ++ fname))
        resp.chunks 0 0).tail
    · dsimp only
      rw [show [DEvent.beginSendRequest, DEvent.endSendRequest,
          DEvent.filenameFound fname, DEvent.filesizeFound n,
          DEvent.beginDownload (loc ++ "/" ++ fname)] ++
          (dlLoop stopAt u (partPath (loc ++ "/" ++ fname)) resp.chunks 0 0).events ++
          [DEvent.endDownload (loc ++ "/" ++ fname)] =
          [DEvent.beginSendRequest, DEvent.endSendRequest,
          DEvent.filenameFound fname, DEvent.filesizeFound n,
          DEvent.beginDownload (loc ++ "/" ++ fname)] ++
          ((dlLoop stopAt u (partPath (loc ++ "/" ++ fname)) resp.chunks 0 0).events ++
          [DEvent.endDownload (loc ++ "/" ++ fname)]) from by
        rw [List.append_assoc]]
      rw [(bytesValues_head_tail fname n (loc ++ "/" ++ fname)
        (loc ++ "/" ++ fname) _).1]
      rw [(bytesValues_head_tail fname n (loc ++ "/" ++ fname)
        (loc ++ "/" ++ fname) _).2]
      exact (dlLoop_chain stopAt u (partPath (loc ++ "/" ++ fname))
        resp.chunks 0 0).tail

/-- C2: for every download run that completes successfully, the written
byte count equals the parsed `Content-Length` (assuming the transport
delivered exactly the announced bytes, i.e. a well-formed run), the
sidecar path no longer exists on disk (assuming no unrelated file
pre-existed there), and a file with the full body exists at the final
path.  Holds in both backing modes. -/
theorem c2_successful_download_invariants (resp : Response) (u : Bool)
    (loc fname : String) (n : Nat) (fs0 : FS)
    (hH : headerInfo resp = Except.ok (n, fname))
    (hsum : (resp.chunks.map List.length).sum = n)
    (hclean : fs0 (partPath (loc ++ "/" ++ fname)) = none) :
    (DownloaderThread.run resp u loc none fs0).success = true ∧
    (DownloaderThread.run resp u loc none fs0).downloaded_bytes = n ∧
    (DownloaderThread.run resp u loc none fs0).fs
      (partPath (loc ++ "/" ++ fname)) = none ∧
    (DownloaderThread.run resp u loc none fs0).fs (loc ++ "/" ++ fname) =
      some resp.chunks.flatten := by
  rcases run_ok_shape resp u loc fname n fs0 hH with ⟨_, hsucc, _, _, hdb⟩
  refine ⟨hsucc, ?_, ?_, ?_⟩
  · rw [hdb, List.length_flatten, hsum]
  · cases u with
    | false =>
      rw [run_fs_file_mode resp loc fname n fs0 hH, updateFn_same]
    | true =>
      rw [run_fs_bytesio_mode resp loc fname n fs0 hH,
        updateFn_ne _ _ _ (Ne.symm (partPath_ne (loc ++ "/" ++ fname))), hclean]
  · cases u with
    | false =>
      rw [run_fs_file_mode resp loc fname n fs0 hH,
        updateFn_ne _ _ _ (partPath_ne (loc ++ "/" ++ fname)), updateFn_same]
    | true =>
      rw [run_fs_bytesio_mode resp loc fname n fs0 hH, updateFn_same]

/-- Witness for C2 at a concrete run: two chunks 2+2 bytes against
`Content-Length: 4`. -/
theorem c2_successful_download_invariants_witness :
    (DownloaderThread.run
        ⟨true, some 4, some "attachment; filename=a.bin", [[1, 2], [3, 4]]⟩
        false "d" none (fun _ => none)).success = true ∧
    (DownloaderThread.run
        ⟨true, some 4, some "attachment; filename=a.bin", [[1, 2], [3, 4]]⟩
        false "d" none (fun _ => none)).downloaded_bytes = 4 ∧
    (DownloaderThread.run
        ⟨true, some 4, some "attachment; filename=a.bin", [[1, 2], [3, 4]]⟩
        false "d" none (fun _ => none)).fs
      (partPath ("d" ++ "/" ++ "a.bin")) = none ∧
    (DownloaderThread.run
        ⟨true, some 4, some "attachment; filename=a.bin", [[1, 2], [3, 4]]⟩
        false "d" none (fun _ => none)).fs ("d" ++ "/" ++ "a.bin") =
      some ([[1, 2], [3, 4]] : List (List Nat)).flatten :=
  c2_successful_download_invariants
    ⟨true, some 4, some "attachment; filename=a.bin", [[1, 2], [3, 4]]⟩
    false "d" "a.bin" 4 (fun _ => none) rfl rfl rfl

/-- C4: a response with no `Content-Length` header makes the run die with
an uncaught `KeyError` — not a typed `MissingMetadata` failure as the
specification requires — though it does fail before any `beginDownload`
(and emits no terminal event at all).  The code contradicts the spec's
stated intent here. -/
theorem c4_missing_content_length_uncaught :
    (DownloaderThread.run
        ⟨true, none, some "attachment; filename=test.bin", [[42]]⟩
        false "dest" none (fun _ => none)).outcome = .raised .keyError ∧
    (DownloaderThread.run
        ⟨true, none, some "attachment; filename=test.bin", [[42]]⟩
        false "dest" none (fun _ => none)).events.countP isBeginDl = 0 ∧
    (DownloaderThread.run
        ⟨true, none, some "attachment; filename=test.bin", [[42]]⟩
        false "dest" none (fun _ => none)).events.countP isEndDl = 0 :=
  ⟨rfl, rfl, rfl⟩

/-- C6: stopping a (file-backed) download between chunk iterations, with
the flag observed at chunk boundary `k` before the body is exhausted,
yields exactly one `endDownload` in the combined trace, `success = false`,
and the sidecar file persisting with exactly the bytes of the first `k`
chunks. -/
theorem c6_stop_mid_download (resp : Response) (loc fname : String)
    (n k : Nat) (fs0 : FS) (hH : headerInfo resp = Except.ok (n, fname))
    (hk : k < resp.chunks.length) :
    (stoppedDownloadTrace resp false loc fs0 k).countP isEndDl = 1 ∧
    (DownloaderThread.run resp false loc (some k) fs0).success = false ∧
    (DownloaderThread.run resp false loc (some k) fs0).fs
      (partPath (loc ++ "/" ++ fname)) =
      some ((resp.chunks.take k).flatten) := by
  rcases run_stopped_shape resp false loc fname n k fs0 hH hk with
    ⟨hev, hsucc, hfl, _⟩
  refine ⟨?_, hsucc, ?_⟩
  · simp only [stoppedDownloadTrace]
    rw [List.countP_append, hev, List.countP_append,
      dlLoop_countP_isEndDl]
    simp [isEndDl, List.countP_cons]
  · rw [run_fs_stopped resp loc fname n k fs0 hH hk, updateFn_same]

/-- Witness for C6: stop after 2 of 4 chunks; the sidecar holds the first
two chunks. -/
theorem c6_stop_mid_download_witness :
    (2 < ([[1], [2], [3], [4]] : List (List Nat)).length) ∧
    (stoppedDownloadTrace ⟨true, some 4, some "filename=t.bin", [[1], [2], [3], [4]]⟩
        false "d" (fun _ => none) 2).countP isEndDl = 1 ∧
    (DownloaderThread.run ⟨true, some 4, some "filename=t.bin", [[1], [2], [3], [4]]⟩
        false "d" (some 2) (fun _ => none)).success = false ∧
    (DownloaderThread.run ⟨true, some 4, some "filename=t.bin", [[1], [2], [3], [4]]⟩
        false "d" (some 2) (fun _ => none)).fs
      (partPath ("d" ++ "/" ++ "t.bin")) =
      some ((([[1], [2], [3], [4]] : List (List Nat)).take 2).flatten) :=
  ⟨by decide,
   c6_stop_mid_download ⟨true, some 4, some "filename=t.bin", [[1], [2], [3], [4]]⟩
     "d" "t.bin" 4 2 (fun _ => none) rfl (by decide)⟩

/-- C7: an extraction-backend failure (corrupt / unsupported archive)
aborts before the merge begins: `success` stays false, the destination
listing is untouched at every name, and no terminal event is emitted by
the run. -/
theorem c7_backend_failure_leaves_dest_untouched (destName : String)
    (dest : DirMap) :
    (ExtractionThread.run ArchiveOutcome.err destName dest).success = false ∧
    (ExtractionThread.run ArchiveOutcome.err destName dest).outcome =
      .raised .patoolibError ∧
    (∀ p, (ExtractionThread.run ArchiveOutcome.err destName dest).dest p = dest p) ∧
    (ExtractionThread.run ArchiveOutcome.err destName dest).events.countP
      isEndEx = 0 :=
  ⟨rfl, rfl, fun _ => rfl, rfl⟩

/-- C8: within one download run — stopped or not, either backing mode —
the payloads of successive `bytesChanged` events are monotonically
non-decreasing, both in the run's own trace and in the combined trace of
a stopped run. -/
theorem c8_bytes_changed_monotone (resp : Response) (u : Bool) (loc : String)
    (stopAt : Option Nat) (fs0 : FS) :
    List.Chain' (· ≤ ·)
      (bytesValues (DownloaderThread.run resp u loc stopAt fs0).events) ∧
    ∀ k, List.Chain' (· ≤ ·)
      (bytesValues (stoppedDownloadTrace resp u loc fs0 k)) := by
  refine ⟨run_bytesValues_chain resp u loc stopAt fs0, fun k => ?_⟩
  simp only [stoppedDownloadTrace]
  rw [bytesValues_append,
    show bytesValues [DEvent.endDownload (pyStr (DownloaderThread.run resp u loc
      (some k) fs0).file_location)] = [] from rfl, List.append_nil]
  exact run_bytesValues_chain resp u loc (some k) fs0

/-- In file mode, none of the loop's disk operations targets a path other
than the sidecar. -/
lemma dlLoop_ops_filter_ne (stopAt : Option Nat) (p q : String) (hpq : ¬ p = q) :
    ∀ (chunks : List (List Nat)) (i d : Nat),
      (dlLoop stopAt false p chunks i d).ops.filter
        (fun op => op.target = q) = [] := by
  intro chunks
  induction chunks with
  | nil => intro i d; rfl
  | cons c rest ih =>
    intro i d
    rw [dlLoop]
    split
    · rfl
    · split
      · exact ih (i + 1) d
      · simp only [Bool.false_eq_true, if_false, List.singleton_append,
          List.filter_cons]
        rw [show decide ((FsOp.write p c).target = q) = false by
          simp [FsOp.target, hpq]]
        simp only [Bool.false_eq_true, if_false]
        exact ih (i + 1) (d + c.length)

/-- A nonempty body makes the loop observe a flag set before check 0
immediately. -/
lemma dlLoop_stop_at_zero (u : Bool) (p : String) (chunks : List (List Nat))
    (hne : chunks ≠ []) : dlLoop (some 0) u p chunks 0 0 = ⟨[], [], [], true⟩ := by
  cases chunks with
  | nil => exact absurd rfl hne
  | cons c rest => rfl

/-- C1 counterexample: a download run that fails with an error (here an
HTTP error status raised by `raise_for_status`) emits no terminal event at
all, contradicting "emitted exactly once whether the run completes
successfully, fails with an error, or is stopped". -/
theorem c1_error_run_emits_no_terminal :
    (DownloaderThread.run ⟨false, some 4, some "filename=x.bin", [[7]]⟩
        false "d" none (fun _ => none)).outcome = .raised .httpError ∧
    (DownloaderThread.run ⟨false, some 4, some "filename=x.bin", [[7]]⟩
        false "d" none (fun _ => none)).events.countP isEndDl = 0 :=
  ⟨rfl, rfl⟩

/-- C1 (amended): the terminal event is emitted exactly once and last for
runs that complete successfully (both workers) and for download runs
stopped between chunk iterations at a reachable boundary; a run that dies
with an unhandled exception emits no terminal event at all; and a stopped
extraction run — whose body never consults the stop flag — emits its
terminal event twice (once from `stop()`, once at completion). -/
theorem c1_terminal_event_once_and_last :
    (∀ (resp : Response) (u : Bool) (loc fname : String) (n : Nat) (fs0 : FS),
      headerInfo resp = Except.ok (n, fname) →
      (DownloaderThread.run resp u loc none fs0).events.countP isEndDl = 1 ∧
      (DownloaderThread.run resp u loc none fs0).events.getLast? =
        some (DEvent.endDownload (loc ++ "/" ++ fname))) ∧
    (∀ (resp : Response) (u : Bool) (loc fname : String) (n k : Nat) (fs0 : FS),
      headerInfo resp = Except.ok (n, fname) → k < resp.chunks.length →
      (stoppedDownloadTrace resp u loc fs0 k).countP isEndDl = 1 ∧
      (stoppedDownloadTrace resp u loc fs0 k).getLast? =
        some (DEvent.endDownload (loc ++ "/" ++ fname))) ∧
    (∀ (b : ArchiveOutcome) (destName : String) (dest : DirMap),
      (ExtractionThread.run b destName dest).success = true →
      (ExtractionThread.run b destName dest).events.countP isEndEx = 1 ∧
      (ExtractionThread.run b destName dest).events.getLast? =
        some (EEvent.endExtract destName)) ∧
    (∀ (resp : Response) (u : Bool) (loc : String) (stopAt : Option Nat)
        (fs0 : FS) (e : PyExc),
      (DownloaderThread.run resp u loc stopAt fs0).outcome = .raised e →
      (DownloaderThread.run resp u loc stopAt fs0).events.countP isEndDl = 0) ∧
    (∀ (b : ArchiveOutcome) (destName : String) (dest : DirMap) (e : PyExc),
      (ExtractionThread.run b destName dest).outcome = .raised e →
      (ExtractionThread.run b destName dest).events.countP isEndEx = 0) ∧
    (∀ (b : ArchiveOutcome) (destName : String) (dest : DirMap) (i : Nat),
      (ExtractionThread.run b destName dest).success = true →
      (stoppedExtractTrace b destName dest i).countP isEndEx = 2) := by
  refine ⟨?_, ?_, ?_, ?_, ?_, ?_⟩
  · intro resp u loc fname n fs0 hH
    rcases run_ok_shape resp u loc fname n fs0 hH with ⟨hev, _, _, _, _⟩
    rw [hev]
    constructor
    · rw [List.countP_append, List.countP_append, dlLoop_countP_isEndDl]
      simp [isEndDl, List.countP_cons]
    · rw [← List.append_assoc, getLast?_append_one]
  · intro resp u loc fname n k fs0 hH hk
    rcases run_stopped_shape resp u loc fname n k fs0 hH hk with
      ⟨hev, _, hfl, _⟩
    constructor
    · simp only [stoppedDownloadTrace]
      rw [List.countP_append, hev, List.countP_append, dlLoop_countP_isEndDl]
      simp [isEndDl, List.countP_cons]
    · simp only [stoppedDownloadTrace]
      rw [getLast?_append_one, hfl]
      rfl
  · intro b destName dest hsucc
    cases b with
    | err => exact absurd hsucc (by simp [ExtractionThread.run])
    | ok staged =>
      rcases hm : mergeLoop staged dest with ⟨d1, oe⟩
      cases oe with
      | some e =>
        rw [show (ExtractionThread.run (ArchiveOutcome.ok staged) destName
            dest).success = false by simp only [ExtractionThread.run, hm]] at hsucc
        exact Bool.noConfusion hsucc
      | none =>
        simp only [ExtractionThread.run, hm]
        exact ⟨rfl, rfl⟩
  · intro resp u loc stopAt fs0 e h
    have hH := run_raised_headerInfo resp u loc stopAt fs0 e h
    rcases run_error_shape resp u loc stopAt fs0 e hH with ⟨hev, _, _⟩
    rw [hev]
    rfl
  · intro b destName dest e h
    cases b with
    | err => rfl
    | ok staged =>
      rcases hm : mergeLoop staged dest with ⟨d1, oe⟩
      cases oe with
      | some e2 => simp only [ExtractionThread.run, hm]; rfl
      | none =>
        rw [show (ExtractionThread.run (ArchiveOutcome.ok staged) destName
            dest).outcome = .finished by simp only [ExtractionThread.run, hm]] at h
        exact Outcome.noConfusion h
  · intro b destName dest i hsucc
    cases b with
    | err => exact absurd hsucc (by simp [ExtractionThread.run])
    | ok staged =>
      rcases hm : mergeLoop staged dest with ⟨d1, oe⟩
      cases oe with
      | some e =>
        rw [show (ExtractionThread.run (ArchiveOutcome.ok staged) destName
            dest).success = false by simp only [ExtractionThread.run, hm]] at hsucc
        exact Bool.noConfusion hsucc
      | none =>
        have hevents : (ExtractionThread.run (ArchiveOutcome.ok staged) destName
            dest).events =
            [EEvent.beginExtract destName, EEvent.endExtract destName] := by
          simp only [ExtractionThread.run, hm]
        simp only [stoppedExtractTrace, hevents]
        rw [List.countP_append, List.countP_append]
        have h1 : ([EEvent.beginExtract destName,
            EEvent.endExtract destName].take i).countP isEndEx +
            ([EEvent.beginExtract destName,
              EEvent.endExtract destName].drop i).countP isEndEx = 1 := by
          rw [← List.countP_append, List.take_append_drop]
          rfl
        have h2 : ([EEvent.endExtract destName]).countP isEndEx = 1 := rfl
        omega

/-- Witness for the amended C1 at concrete runs: one successful download
and one successful extraction, each with exactly one terminal event,
emitted last. -/
theorem c1_terminal_event_once_and_last_witness :
    ((DownloaderThread.run ⟨true, some 1, some "filename=w.bin", [[9]]⟩
        false "d" none (fun _ => none)).events.countP isEndDl = 1 ∧
     (DownloaderThread.run ⟨true, some 1, some "filename=w.bin", [[9]]⟩
        false "d" none (fun _ => none)).events.getLast? =
       some (DEvent.endDownload ("d" ++ "/" ++ "w.bin"))) ∧
    ((ExtractionThread.run (ArchiveOutcome.ok [("lib", FsEntry.dir [])]) "e"
        (fun _ => none)).events.countP isEndEx = 1 ∧
     (ExtractionThread.run (ArchiveOutcome.ok [("lib", FsEntry.dir [])]) "e"
        (fun _ => none)).events.getLast? = some (EEvent.endExtract "e")) :=
  ⟨c1_terminal_event_once_and_last.1
     ⟨true, some 1, some "filename=w.bin", [[9]]⟩ false "d" "w.bin" 1
     (fun _ => none) rfl,
   c1_terminal_event_once_and_last.2.2.1
     (ArchiveOutcome.ok [("lib", FsEntry.dir [])]) "e" (fun _ => none) rfl⟩

/-- C3 counterexample: in the in-memory (`use_bytesio`) mode a successful
run commits by truncating the final path and copying the buffer into it —
three disk operations, none of them a rename — and immediately after the
truncating open, a reader of the final path would observe an empty file
instead of the two-byte body.  The atomic-commit claim therefore fails in
this mode. -/
theorem c3_bytesio_commit_not_atomic :
    (DownloaderThread.run ⟨true, some 2, some "filename=t.bin", [[5, 6]]⟩
        true "d" none (fun _ => none)).success = true ∧
    (DownloaderThread.run ⟨true, some 2, some "filename=t.bin", [[5, 6]]⟩
        true "d" none (fun _ => none)).ops =
      [FsOp.openWrite ("d" ++ "/" ++ "t.bin"),
       FsOp.write ("d" ++ "/" ++ "t.bin") [5, 6],
       FsOp.close ("d" ++ "/" ++ "t.bin")] ∧
    ((DownloaderThread.run ⟨true, some 2, some "filename=t.bin", [[5, 6]]⟩
        true "d" none (fun _ => none)).ops.take 1).foldl FsOp.apply
      (fun _ => none) ("d" ++ "/" ++ "t.bin") = some [] :=
  ⟨rfl, rfl, rfl⟩

/-- C3 (amended): on normal completion the file-backed mode commits by a
single atomic rename of the sidecar onto the final path (the only disk
operation ever aimed at the final path), silently overwriting whatever was
there; the in-memory mode instead truncates the final path and copies the
buffer in — no rename at all — so its commit is not atomic, though it too
silently overwrites and ends with the full body at the final path. -/
theorem c3_commit_atomicity_amended (resp : Response) (loc fname : String)
    (n : Nat) (fs0 : FS) (hH : headerInfo resp = Except.ok (n, fname)) :
    ((DownloaderThread.run resp false loc none fs0).ops.filter
        (fun op => op.target = (loc ++ "/" ++ fname)) =
      [FsOp.replace (partPath (loc ++ "/" ++ fname)) (loc ++ "/" ++ fname)]) ∧
    (DownloaderThread.run resp false loc none fs0).fs (loc ++ "/" ++ fname) =
      some resp.chunks.flatten ∧
    (DownloaderThread.run resp false loc none fs0).fs
      (partPath (loc ++ "/" ++ fname)) = none ∧
    ((DownloaderThread.run resp true loc none fs0).ops.filter
        (fun op => op.target = (loc ++ "/" ++ fname)) =
      [FsOp.openWrite (loc ++ "/" ++ fname),
       FsOp.write (loc ++ "/" ++ fname) resp.chunks.flatten,
       FsOp.close (loc ++ "/" ++ fname)]) ∧
    (∀ s d, FsOp.replace s d ∈ (DownloaderThread.run resp true loc none fs0).ops →
      False) ∧
    (DownloaderThread.run resp true loc none fs0).fs (loc ++ "/" ++ fname) =
      some resp.chunks.flatten := by
  have hloopF := dlLoop_none false (partPath (loc ++ "/" ++ fname)) resp.chunks 0 0
  have hloopT := dlLoop_none true (partPath (loc ++ "/" ++ fname)) resp.chunks 0 0
  have hne : ¬ partPath (loc ++ "/" ++ fname) = (loc ++ "/" ++ fname) :=
    Ne.symm (partPath_ne (loc ++ "/" ++ fname))
  refine ⟨?_, ?_, ?_, ?_, ?_, ?_⟩
  · simp only [DownloaderThread.run, hH, hloopF.1, Bool.false_eq_true, if_false]
    rw [List.filter_append, List.filter_append]
    rw [dlLoop_ops_filter_ne none (partPath (loc ++ "/" ++ fname))
      (loc ++ "/" ++ fname) hne resp.chunks 0 0]
    simp [List.filter_cons, FsOp.target, hne]
  · rw [run_fs_file_mode resp loc fname n fs0 hH,
      updateFn_ne _ _ _ (partPath_ne (loc ++ "/" ++ fname)), updateFn_same]
  · rw [run_fs_file_mode resp loc fname n fs0 hH, updateFn_same]
  · simp only [DownloaderThread.run, hH, hloopT.1, Bool.false_eq_true, if_false,
      if_true]
    rw [dlLoop_ops_bytesio none (partPath (loc ++ "/" ++ fname)) resp.chunks 0 0,
      hloopT.2]
    simp [List.filter_cons, FsOp.target]
  · intro s d hmem
    simp only [DownloaderThread.run, hH, hloopT.1, Bool.false_eq_true, if_false,
      if_true] at hmem
    rw [dlLoop_ops_bytesio none (partPath (loc ++ "/" ++ fname)) resp.chunks 0 0]
      at hmem
    simp at hmem
  · rw [run_fs_bytesio_mode resp loc fname n fs0 hH, updateFn_same]

/-- Witness for the amended C3 at one concrete run in each mode. -/
theorem c3_commit_atomicity_amended_witness :
    ((DownloaderThread.run ⟨true, some 2, some "filename=w.bin", [[8, 9]]⟩
        false "d" none (fun _ => none)).ops.filter
        (fun op => op.target = ("d" ++ "/" ++ "w.bin")) =
      [FsOp.replace (partPath ("d" ++ "/" ++ "w.bin")) ("d" ++ "/" ++ "w.bin")]) ∧
    ((DownloaderThread.run ⟨true, some 2, some "filename=w.bin", [[8, 9]]⟩
        true "d" none (fun _ => none)).ops.filter
        (fun op => op.target = ("d" ++ "/" ++ "w.bin")) =
      [FsOp.openWrite ("d" ++ "/" ++ "w.bin"),
       FsOp.write ("d" ++ "/" ++ "w.bin")
         ([[8, 9]] : List (List Nat)).flatten,
       FsOp.close ("d" ++ "/" ++ "w.bin")]) := by
  have h := c3_commit_atomicity_amended
    ⟨true, some 2, some "filename=w.bin", [[8, 9]]⟩ "d" "w.bin" 2
    (fun _ => none) rfl
  exact ⟨h.1, h.2.2.2.1⟩

/-- C5 counterexample: when the pre-existing same-named entry is a plain
FILE, the merge does not delete-and-replace it: `shutil.rmtree` raises
`NotADirectoryError`, the run fails, and the destination still holds the
old file rather than the archive's version. -/
theorem c5_file_collision_fails :
    (ExtractionThread.run (ArchiveOutcome.ok [("X", FsEntry.dir [])]) "dest"
        (updateFn (fun _ => none) "X" (some (FsEntry.file [7])))).success =
      false ∧
    (ExtractionThread.run (ArchiveOutcome.ok [("X", FsEntry.dir [])]) "dest"
        (updateFn (fun _ => none) "X" (some (FsEntry.file [7])))).dest "X" =
      some (FsEntry.file [7]) ∧
    (ExtractionThread.run (ArchiveOutcome.ok [("X", FsEntry.dir [])]) "dest"
        (updateFn (fun _ => none) "X" (some (FsEntry.file [7])))).outcome =
      .raised .notADirectoryError :=
  ⟨rfl, rfl, rfl⟩

/-- C5 (amended): after a run that succeeds, every staged top-level entry
— in particular any entry whose name collided with a pre-existing
directory — sits in the destination exactly as the archive's version
(old contents fully replaced, not merged); but a collision with a
pre-existing plain file makes the run fail instead of replacing it. -/
theorem c5_overwrite_by_name_amended (staged : List (String × FsEntry))
    (destName X : String) (e : FsEntry) (dest : DirMap)
    (hnd : (staged.map Prod.fst).Nodup) (hmem : (X, e) ∈ staged) :
    ((ExtractionThread.run (ArchiveOutcome.ok staged) destName dest).success =
        true →
      (ExtractionThread.run (ArchiveOutcome.ok staged) destName dest).dest X =
        some e) ∧
    (∀ c, dest X = some (FsEntry.file c) →
      (ExtractionThread.run (ArchiveOutcome.ok staged) destName dest).success =
        false) := by
  constructor
  · intro hsucc
    rcases hm : mergeLoop staged dest with ⟨d1, oe⟩
    cases oe with
    | some e2 =>
      rw [show (ExtractionThread.run (ArchiveOutcome.ok staged) destName
          dest).success = false by simp only [ExtractionThread.run, hm]] at hsucc
      exact Bool.noConfusion hsucc
    | none =>
      simp only [ExtractionThread.run, hm]
      have := mergeLoop_ok_mem staged dest hnd (by rw [hm]) (X, e) hmem
      rw [hm] at this
      exact this
  · intro c hc
    have herr := mergeLoop_file_err staged dest X c
      (by simpa using List.mem_map_of_mem Prod.fst hmem) hc
    rcases hm : mergeLoop staged dest with ⟨d1, oe⟩
    rw [hm] at herr
    cases herr
    simp only [ExtractionThread.run, hm]

/-- Witness for the amended C5: a staged `lib` directory replaces a stale
pre-existing `lib` directory wholesale. -/
theorem c5_overwrite_by_name_amended_witness :
    (ExtractionThread.run (ArchiveOutcome.ok
        [("lib", FsEntry.dir [("a.txt", FsEntry.file [1])])]) "dest"
        (updateFn (fun _ => none) "lib"
          (some (FsEntry.dir [("old", FsEntry.file [0])])))).dest "lib" =
      some (FsEntry.dir [("a.txt", FsEntry.file [1])]) :=
  (c5_overwrite_by_name_amended
    [("lib", FsEntry.dir [("a.txt", FsEntry.file [1])])] "dest" "lib"
    (FsEntry.dir [("a.txt", FsEntry.file [1])])
    (updateFn (fun _ => none) "lib"
      (some (FsEntry.dir [("old", FsEntry.file [0])])))
    (by simp) (List.mem_singleton.mpr rfl)).1 rfl

/-- C9 counterexample: an archive whose top level contains a plain file
`f` extracts fine into an empty destination, but running the same
extraction again fails — the second run finds `f` in the destination and
`shutil.rmtree` raises `NotADirectoryError` on it — so repeating an
extraction is not idempotent in general. -/
theorem c9_second_run_fails_on_file_entry :
    (ExtractionThread.run (ArchiveOutcome.ok [("f", FsEntry.file [1])]) "dest"
        (fun _ => none)).success = true ∧
    (ExtractionThread.run (ArchiveOutcome.ok [("f", FsEntry.file [1])]) "dest"
        (ExtractionThread.run (ArchiveOutcome.ok [("f", FsEntry.file [1])])
          "dest" (fun _ => none)).dest).success = false :=
  ⟨rfl, rfl⟩

/-- C9 (amended): repeating an extraction into the same destination is
idempotent provided every top-level entry of the archive is a directory:
the second run then also succeeds and leaves the destination listing
exactly as the first run left it.  (With a top-level plain file the second
run fails, per the counterexample.) -/
theorem c9_idempotent_for_dir_archives (staged : List (String × FsEntry))
    (destName : String) (dest0 : DirMap)
    (hnd : (staged.map Prod.fst).Nodup)
    (hdirs : ∀ ne ∈ staged, entryIsFile (some ne.2) = false)
    (h1 : (ExtractionThread.run (ArchiveOutcome.ok staged) destName
      dest0).success = true) :
    (ExtractionThread.run (ArchiveOutcome.ok staged) destName
      (ExtractionThread.run (ArchiveOutcome.ok staged) destName dest0).dest).success
      = true ∧
    ∀ p, (ExtractionThread.run (ArchiveOutcome.ok staged) destName
        (ExtractionThread.run (ArchiveOutcome.ok staged) destName
          dest0).dest).dest p =
      (ExtractionThread.run (ArchiveOutcome.ok staged) destName dest0).dest p := by
  rcases hm1 : mergeLoop staged dest0 with ⟨d1, oe1⟩
  cases oe1 with
  | some e =>
    rw [show (ExtractionThread.run (ArchiveOutcome.ok staged) destName
        dest0).success = false by simp only [ExtractionThread.run, hm1]] at h1
    exact Bool.noConfusion h1
  | none =>
    have hd1 : (ExtractionThread.run (ArchiveOutcome.ok staged) destName
        dest0).dest = d1 := by simp only [ExtractionThread.run, hm1]
    have hfix := mergeLoop_fixed staged d1 (fun ne hne => by
      have hmm := mergeLoop_ok_mem staged dest0 hnd (by rw [hm1]) ne hne
      rw [hm1] at hmm
      exact ⟨hmm, hdirs ne hne⟩)
    rcases hm2 : mergeLoop staged d1 with ⟨d2, oe2⟩
    rw [hm2] at hfix
    obtain ⟨hoe2, hd2⟩ := hfix
    cases hoe2
    rw [hd1]
    simp only [ExtractionThread.run, hm2]
    exact ⟨by trivial, fun p => congrFun hd2 p⟩

/-- Witness for the amended C9: extracting an archive holding one `lib`
directory twice into an (initially empty) destination succeeds both times
and leaves the same listing. -/
theorem c9_idempotent_for_dir_archives_witness :
    (ExtractionThread.run (ArchiveOutcome.ok
        [("lib", FsEntry.dir [("a", FsEntry.file [2])])]) "dest"
      (ExtractionThread.run (ArchiveOutcome.ok
          [("lib", FsEntry.dir [("a", FsEntry.file [2])])]) "dest"
        (fun _ => none)).dest).success = true ∧
    (ExtractionThread.run (ArchiveOutcome.ok
        [("lib", FsEntry.dir [("a", FsEntry.file [2])])]) "dest"
      (ExtractionThread.run (ArchiveOutcome.ok
          [("lib", FsEntry.dir [("a", FsEntry.file [2])])]) "dest"
        (fun _ => none)).dest).dest "lib" =
      (ExtractionThread.run (ArchiveOutcome.ok
          [("lib", FsEntry.dir [("a", FsEntry.file [2])])]) "dest"
        (fun _ => none)).dest "lib" := by
  have h := c9_idempotent_for_dir_archives
    [("lib", FsEntry.dir [("a", FsEntry.file [2])])] "dest" (fun _ => none)
    (by simp) (by decide) rfl
  exact ⟨h.1, h.2 "lib"⟩

/-- C10 counterexample: if the body yields no chunks (e.g.
`Content-Length: 0`), the loop body never runs, so a stop flag set before
header processing is never observed: the run completes with
`success = true` and the combined trace carries TWO `endDownload` events
(the stop's `"None"`-payload one and the run's own), contradicting the
claimed "exactly once with succeeded = false". -/
theorem c10_stop_before_headers_empty_body :
    (stopBeforeHeadersTrace ⟨true, some 0, some "filename=e.bin", []⟩
        false "d" (fun _ => none)).countP isEndDl = 2 ∧
    (DownloaderThread.run ⟨true, some 0, some "filename=e.bin", []⟩
        false "d" (some 0) (fun _ => none)).success = true :=
  ⟨rfl, rfl⟩

/-- C10 (amended): when `stop()` is called before the response headers
have been processed and the body yields at least one chunk, exactly one
`endDownload` is emitted, `success` is false, and the emitted payload is
the literal string `"None"` (the `str(...)` of the still-unset
`file_location`). -/
theorem c10_stop_before_headers_amended (resp : Response) (u : Bool)
    (loc : String) (fs0 : FS) (hne : resp.chunks ≠ []) :
    (stopBeforeHeadersTrace resp u loc fs0).countP isEndDl = 1 ∧
    (DownloaderThread.run resp u loc (some 0) fs0).success = false ∧
    DEvent.endDownload "None" ∈ stopBeforeHeadersTrace resp u loc fs0 := by
  cases hh : headerInfo resp with
  | error e =>
    rcases run_error_shape resp u loc (some 0) fs0 e hh with ⟨hev, hsucc, _⟩
    refine ⟨?_, hsucc, ?_⟩
    · simp only [stopBeforeHeadersTrace, hev]
      rfl
    · simp only [stopBeforeHeadersTrace, hev, pyStr]
      simp
  | ok v =>
    obtain ⟨n, fname⟩ := v
    have hk : 0 < resp.chunks.length := List.length_pos.mpr hne
    rcases run_stopped_shape resp u loc fname n 0 fs0 hh hk with
      ⟨hev, hsucc, _, _⟩
    rw [dlLoop_stop_at_zero u (partPath (loc ++ "/" ++ fname)) resp.chunks hne]
      at hev
    simp only [List.append_nil] at hev
    refine ⟨?_, hsucc, ?_⟩
    · simp only [stopBeforeHeadersTrace, hev]
      rfl
    · simp only [stopBeforeHeadersTrace, hev, pyStr]
      simp

/-- Witness for the amended C10 with a one-chunk body. -/
theorem c10_stop_before_headers_amended_witness :
    (stopBeforeHeadersTrace ⟨true, some 3, some "filename=v.bin", [[1, 2, 3]]⟩
        false "d" (fun _ => none)).countP isEndDl = 1 ∧
    (DownloaderThread.run ⟨true, some 3, some "filename=v.bin", [[1, 2, 3]]⟩
        false "d" (some 0) (fun _ => none)).success = false ∧
    DEvent.endDownload "None" ∈ stopBeforeHeadersTrace
      ⟨true, some 3, some "filename=v.bin", [[1, 2, 3]]⟩ false "d"
      (fun _ => none) :=
  c10_stop_before_headers_amended
    ⟨true, some 3, some "filename=v.bin", [[1, 2, 3]]⟩ false "d"
    (fun _ => none) (by simp)
